import Mathlib

/-
Verification of the session-lifecycle core of the claude-conduit relay
daemon. Each definition is a shallow embedding of a function or state
component of the TypeScript source (src/daemon/src/... and the unnamed
source parts); the theorems settle the frozen claims about the spec.
-/

namespace Conduit

/-- JavaScript Map.get over an insertion-ordered association list. -/
def jsMapGet {α : Type} : List (String × α) → String → Option α
  | [], _ => Option.none
  | p :: t, k => if p.1 = k then some p.2 else jsMapGet t k

/-- JavaScript Map.set: update the value in place when the key is present,
append at the end otherwise. -/
def jsMapSet {α : Type} : List (String × α) → String → α →
    List (String × α)
  | [], k, v => [(k, v)]
  | p :: t, k, v => if p.1 = k then (k, v) :: t else p :: jsMapSet t k v

/-- JavaScript Map.delete. -/
def jsMapDelete {α : Type} : List (String × α) → String →
    List (String × α)
  | [], _ => []
  | p :: t, k => if p.1 = k then jsMapDelete t k else p :: jsMapDelete t k

/-- Keys of an association list are pairwise distinct, as they are for a
JavaScript Map. -/
def nodupKeys {α : Type} (m : List (String × α)) : Prop :=
  (m.map (fun p => p.1)).Nodup

/-
Claim C3: SessionDiscovery.extractPreview
(src/daemon/src/sessions/discovery.ts lines 273-288).
JavaScript `text.length` and `text.slice(0, 200)` count and cut UTF-16
code units, so a JS string is modelled as its list of UTF-16 code units.
-/

/-- A JavaScript string as its sequence of UTF-16 code units. -/
abbrev JsStr := List Nat

/-- The three code units of the literal appended on truncation
(`"..."`, discovery.ts line 287). -/
def jsEllipsis : JsStr := [46, 46, 46]

/-- The code units of the literal `"text"` used by the block filter
(discovery.ts line 280). -/
def textTypeUnits : JsStr := [116, 101, 120, 116]

/-- Truncation step of extractPreview (discovery.ts line 287):
`return text.length > 200 ? text.slice(0, 200) + "..." : text;`. -/
def truncatePreview (t : JsStr) : JsStr :=
  if t.length > 200 then t.take 200 ++ jsEllipsis else t

/-- One block of a structured `message.content` array: a record with a
`type` tag and an optional `text` field (discovery.ts lines 21, 279-281). -/
structure JsBlock where
  btype : JsStr
  text : Option JsStr
deriving DecidableEq

/-- The shape of `message.content` in a log record: a string, an array of
typed blocks, or some other value (discovery.ts lines 19-22, 276-284). -/
inductive JsContent where
  | str (s : JsStr)
  | blocks (l : List JsBlock)
  | other
deriving DecidableEq

/-- SessionDiscovery.extractPreview (discovery.ts lines 273-288).
The argument is `msg.message?.content`; `none` covers a missing message or
content, and the empty string is falsy in JavaScript so it takes the
`!msg.message?.content` early return as well (with the same result as the
truncation branch would give). For an array, the first block whose type is
`"text"` supplies the text, defaulting to the empty string
(`textBlock?.text ?? ""`); any other content shape returns the empty
string. -/
def extractPreview (content : Option JsContent) : JsStr :=
  match content with
  | none => []
  | some (JsContent.str []) => []
  | some (JsContent.str s) => truncatePreview s
  | some (JsContent.blocks l) =>
      truncatePreview
        (((l.find? (fun b => b.btype == textTypeUnits)).bind
            (fun b => b.text)).getD [])
  | some JsContent.other => []

/-- Number of Unicode code points in a UTF-16 code-unit sequence: a high
surrogate followed by a low surrogate forms one code point. Used to state
the claim, which speaks of code points. -/
def codePointCount : JsStr → Nat
  | [] => 0
  | [_] => 1
  | u :: v :: rest =>
      if 0xD800 ≤ u ∧ u ≤ 0xDBFF ∧ 0xDC00 ≤ v ∧ v ≤ 0xDFFF then
        1 + codePointCount rest
      else
        1 + codePointCount (v :: rest)

/-- The surrogate pair for U+1F600, an astral code point: two UTF-16 code
units, one code point. -/
def astralPair : JsStr := [0xD83D, 0xDE00]

/-- A string of 101 astral code points: 101 code points but 202 UTF-16
code units, so the source truncates it although it is well under 200 code
points. -/
def astral101 : JsStr := (List.replicate 101 astralPair).flatten

/-
Claim C1: TerminalBridge.attach guard and the per-id terminal map
(src/daemon/src/terminal/bridge.ts lines 29, 49-51, 57-87).
-/

/-- One entry of TerminalBridge.terminals (bridge.ts ActiveTerminal,
lines 14-20): the PTY (by its pid), creation time, and the monotone
cleanedUp flag. The WebSocket is identified by the session key. -/
structure ActiveTerminal where
  ptyPid : Nat
  createdAt : Nat
  cleanedUp : Bool
deriving DecidableEq

/-- State of the TerminalBridge: the per-session terminal map, plus the
list of pids of every PTY ever spawned (a trace of `pty.spawn` calls,
recording that the rejection path spawns nothing). -/
structure BridgeState where
  terminals : List (String × ActiveTerminal)
  spawned : List Nat
deriving DecidableEq

/-- Result of one attach call: the socket is closed with a code and
reason, or a PTY is spawned and the bridge installed. -/
inductive AttachOutcome where
  | rejected (code : Nat) (reason : String)
  | attached (ptyPid : Nat)
deriving DecidableEq

/-- TerminalBridge.hasActiveTerminal (bridge.ts lines 49-51). -/
def hasActiveTerminal (st : BridgeState) (id : String) : Bool :=
  (jsMapGet st.terminals id).isSome

/-- TerminalBridge.attach (bridge.ts lines 57-87), up to the installation
of the bridge: if the session already has an active terminal, close the
socket with code 4409 and return without spawning; otherwise spawn the
PTY and record the bridge in the per-id map. -/
def bridgeAttach (st : BridgeState) (id : String) (newPid : Nat)
    (now : Nat) : BridgeState × AttachOutcome :=
  if hasActiveTerminal st id then
    (st, AttachOutcome.rejected 4409
      ("Session already has an active terminal connection"))
  else
    ({ terminals := jsMapSet st.terminals id
         { ptyPid := newPid, createdAt := now, cleanedUp := false },
       spawned := st.spawned ++ [newPid] },
     AttachOutcome.attached newPid)

/-- TerminalBridge.cleanupTerminal (bridge.ts lines 219-245): idempotent,
and a no-op when a newer bridge has taken over the id. -/
def cleanupTerminal (st : BridgeState) (id : String)
    (term : ActiveTerminal) : BridgeState :=
  if term.cleanedUp then st
  else if jsMapGet st.terminals id ≠ some term then st
  else { st with terminals := jsMapDelete st.terminals id }

/-
Claims C6 and C7: SessionDiscovery.fullScan and onFileChange
(src/daemon/src/sessions/discovery.ts lines 109-207). The filesystem and
the result of parseSessionFile for each file are supplied as data: a
shallow embedding of the statSync / read calls.
-/

/-- The last-message role of a session (discovery.ts types). -/
inductive Role where
  | user
  | assistant
  | unknown
deriving DecidableEq

/-- Advisory multiplexer status of a metadata entry. -/
inductive TmuxStatus where
  | active
  | detached
  | none
deriving DecidableEq

/-- Session metadata held by the index (src/unnamed/part_000
SessionMetadata); the timestamp is epoch milliseconds. -/
structure SessionMetadata where
  id : String
  projectPath : String
  projectHash : String
  lastMessagePreview : String
  lastMessageRole : Role
  timestamp : Nat
  cliVersion : String
  tmuxStatus : TmuxStatus
deriving DecidableEq

/-- The fields parseSessionFile extracts from the file contents
(discovery.ts lines 209-271); the file contents themselves are external
input, so the extraction result is supplied as data. -/
structure ParsedCore where
  projectPath : String
  lastMessagePreview : String
  lastMessageRole : Role
  cliVersion : String
deriving DecidableEq

/-- Outcome of statSync plus parseSessionFile on one file: a read or stat
failure (the catch branches of fullScan and onFileChange), or success
with the mtime, where `parsed = none` is the zero-length file for which
parseSessionFile returns null. -/
inductive FileOutcome where
  | statError
  | ok (mtimeMs : Nat) (parsed : Option ParsedCore)
deriving DecidableEq

/-- One log file under a project directory, named
`<sessionId>.jsonl`. -/
structure FileEnt where
  sessionId : String
  outcome : FileOutcome
deriving DecidableEq

/-- One project directory under the session root; its basename is the
project hash. -/
structure ProjectDir where
  hash : String
  files : List FileEnt
deriving DecidableEq

/-- In-memory state of SessionDiscovery (discovery.ts lines 27-28):
the session map and the path-to-mtime cache. -/
structure DiscoveryState where
  sessions : List (String × SessionMetadata)
  mtimeCache : List (String × Nat)
deriving DecidableEq

/-- Path of a session log file relative to the root. -/
def filePath (hash id : String) : String :=
  hash ++ ("/") ++ id ++ (".jsonl")

/-- Metadata built by parseSessionFile on success (discovery.ts lines
261-270): timestamp is the file mtime and the status starts as none. -/
def builtMetadata (id hash : String) (mtimeMs : Nat) (core : ParsedCore) :
    SessionMetadata :=
  { id := id, projectPath := core.projectPath, projectHash := hash,
    lastMessagePreview := core.lastMessagePreview,
    lastMessageRole := core.lastMessageRole, timestamp := mtimeMs,
    cliVersion := core.cliVersion, tmuxStatus := TmuxStatus.none }

/-- The placeholder entry fullScan inserts for an unreadable file with no
prior metadata (discovery.ts lines 146-157). -/
def placeholderMetadata (id hash : String) (now : Nat) : SessionMetadata :=
  { id := id, projectPath := "", projectHash := hash,
    lastMessagePreview := "(unable to read)",
    lastMessageRole := Role.unknown, timestamp := now, cliVersion := "",
    tmuxStatus := TmuxStatus.none }

/-- The body of fullScan's per-file loop (discovery.ts lines 117-159):
on a stat or read failure, insert the placeholder only when the session
has no prior metadata; otherwise stat, skip when the cached mtime is
unchanged (the cached value 0 is falsy in JavaScript so it never causes a
skip), update the cache, and on a successful parse store the fresh
metadata, preserving the tmux status of any existing entry. -/
def scanFile (now : Nat) (hash : String) (st : DiscoveryState)
    (f : FileEnt) : DiscoveryState :=
  match f.outcome with
  | FileOutcome.statError =>
      if (jsMapGet st.sessions f.sessionId).isSome then st
      else { st with sessions :=
               (jsMapSet st.sessions f.sessionId
                  (placeholderMetadata f.sessionId hash now)) }
  | FileOutcome.ok mt parsed =>
      let path := filePath hash f.sessionId
      let skip := match jsMapGet st.mtimeCache path with
                  | some c => c != 0 && c == mt
                  | Option.none => false
      if skip then st
      else
        let st1 := { st with mtimeCache := jsMapSet st.mtimeCache path mt }
        match parsed with
        | Option.none => st1
        | some core =>
            let md0 := builtMetadata f.sessionId hash mt core
            let md := match jsMapGet st1.sessions f.sessionId with
                      | some existing =>
                          { md0 with tmuxStatus := existing.tmuxStatus }
                      | Option.none => md0
            { st1 with sessions := jsMapSet st1.sessions f.sessionId md }

/-- All session ids observed during a pass over the given directories
(the `seen` set of fullScan, discovery.ts lines 111-119). -/
def scanSeen (dirs : List ProjectDir) : List String :=
  (dirs.map (fun d => d.files.map (fun f => f.sessionId))).flatten

/-- SessionDiscovery.fullScan (discovery.ts lines 109-170): process every
file of every project directory, then remove from the index every id not
observed this pass. The removal is unconditional: the code consults
neither the multiplexer nor the bridge. -/
def fullScan (now : Nat) (dirs : List ProjectDir) (st : DiscoveryState) :
    DiscoveryState :=
  let st1 := dirs.foldl (fun acc d => d.files.foldl (scanFile now d.hash) acc) st
  { st1 with sessions :=
      st1.sessions.filter (fun p => (scanSeen dirs).contains p.1) }

/-- JavaScript String.endsWith, over the character sequences. -/
def jsEndsWith (s suffix : String) : Bool :=
  suffix.data.isSuffixOf s.data

/-- Strip the last n characters of a string (the
`basename(path, ".jsonl")` step of the watcher handlers). -/
def jsDropRight (s : String) (n : Nat) : String :=
  String.mk (s.data.take (s.data.length - n))

/-- SessionDiscovery.onFileChange (discovery.ts lines 172-199), the
watcher add and change handler: ignore paths without the `.jsonl`
extension; otherwise stat, cache the mtime, re-parse and store fresh
metadata preserving any existing tmux status. A stat or read failure is
caught and only logged: the state is returned unchanged, with no
placeholder. -/
def onFileChange (fileName hash : String) (outcome : FileOutcome)
    (st : DiscoveryState) : DiscoveryState :=
  if ¬ jsEndsWith fileName (".jsonl") then st
  else
    let id := jsDropRight fileName 6
    match outcome with
    | FileOutcome.statError => st
    | FileOutcome.ok mt parsed =>
        let path := hash ++ ("/") ++ fileName
        let st1 := { st with mtimeCache := jsMapSet st.mtimeCache path mt }
        match parsed with
        | Option.none => st1
        | some core =>
            let md0 := builtMetadata id hash mt core
            let md := match jsMapGet st1.sessions id with
                      | some existing =>
                          { md0 with tmuxStatus := existing.tmuxStatus }
                      | Option.none => md0
            { st1 with sessions := jsMapSet st1.sessions id md }

/-
Claim C8: the PTY-to-socket batching path of TerminalBridge.attach
(src/daemon/src/terminal/bridge.ts lines 22-24, 94-140).
-/

/-- Cap on buffered output bytes (bridge.ts line 23). -/
def OUTPUT_BUFFER_MAX : Nat := 1024 * 1024

/-- Send threshold on the socket's pending writes (bridge.ts line 22). -/
def BACKPRESSURE_THRESHOLD : Nat := 64 * 1024

/-- One PTY output chunk, as its byte sequence. -/
abbrev Chunk := List Nat

/-- State of the per-connection output path: the ordered chunk buffer
with its running byte count (bridge.ts lines 95-96), and the chunks
handed to `ws.send` so far (each flush concatenates and sends the whole
buffer as one frame, so the byte stream the socket receives is the
concatenation of `sent`). -/
structure OutState where
  buffer : List Chunk
  bufferSize : Nat
  sent : List Chunk
deriving DecidableEq

/-- Events of the output path: a PTY data callback, or a firing of the
batch timer. The timer either can send (socket open, pending writes at or
under the threshold) or cannot (socket not open, or backpressure), in
which case flushOutput returns without touching the buffer. -/
inductive OutEv where
  | data (c : Chunk)
  | flushReady
  | flushBlocked
deriving DecidableEq

/-- The onData handler (bridge.ts lines 124-140): if enqueuing would push
the buffered byte count above the cap, drop all buffered output, then
append the new chunk. -/
def onData (st : OutState) (c : Chunk) : OutState :=
  let st1 := if st.bufferSize + c.length > OUTPUT_BUFFER_MAX then
               { st with buffer := [], bufferSize := 0 }
             else st
  { st1 with buffer := st1.buffer ++ [c],
             bufferSize := st1.bufferSize + c.length }

/-- The flushOutput closure (bridge.ts lines 106-121): nothing to send on
an empty buffer; when sending is possible, concatenate the buffer into
one frame, clear it and send; otherwise leave the buffer for a later
fire. -/
def flushOutput (st : OutState) (canSend : Bool) : OutState :=
  if st.buffer = [] then st
  else if canSend then
    { buffer := [], bufferSize := 0, sent := st.sent ++ st.buffer }
  else st

/-- One step of the output path. -/
def outStep (st : OutState) (e : OutEv) : OutState :=
  match e with
  | OutEv.data c => onData st c
  | OutEv.flushReady => flushOutput st true
  | OutEv.flushBlocked => flushOutput st false

/-- Run the output path from the initial empty state. -/
def outRun (evs : List OutEv) : OutState :=
  evs.foldl outStep { buffer := [], bufferSize := 0, sent := [] }

/-- The PTY output carried by an event sequence, in order. -/
def evChunks (evs : List OutEv) : List Chunk :=
  evs.filterMap (fun e => match e with
    | OutEv.data c => some c
    | _ => Option.none)

/-
Claims C4 and C5: TmuxManager.attach and TmuxManager.isClaudeRunning.
The Manager exists in two revisions inside
src/daemon/src/tmux/manager.ts; the embedding follows the later,
injected-predicate revision (lines 223-407, the variant the spec
chooses), whose isClaudeRunning regex-escapes the id. The earlier
revision (lines 10-199) differs only in interpolating the id unescaped,
captured by pgrepPatternV1 below. Strings handled by JavaScript string
methods are modelled as lists of characters.
-/

/-- Configuration fields the Manager reads (src/unnamed/part_003
RelayConfig / defaults). -/
structure RelayConfig where
  binary : String
  maxSessions : Nat
  defaultCols : Nat
  defaultRows : Nat
deriving DecidableEq

/-- The defaults of config.ts (part_003 lines 33-56). -/
def defaultConfig : RelayConfig :=
  { binary := "claude", maxSessions := 5, defaultCols := 120,
    defaultRows := 40 }

/-- One parsed line of `tmux list-sessions` output (types.ts
TmuxSession). -/
structure TmuxSession where
  name : List Char
  attached : Bool
  created : Nat
deriving DecidableEq

/-- TmuxManager.tmuxName (manager.ts line 365). -/
def tmuxNameOf (id : List Char) : List Char :=
  ("claude-").toList ++ id

/-- SessionConflictError (manager.ts lines 409-417). -/
structure SessionConflictError where
  code : String
  message : String
deriving DecidableEq

/-- The successful result of TmuxManager.attach. -/
structure AttachOk where
  tmuxSession : List Char
  existed : Bool
deriving DecidableEq

/-- The external observations TmuxManager.attach makes, in order: the
injected bridge predicate, the pgrep-based process check, the parsed
`tmux list-sessions` output, and `tmux has-session` for this id's tab
name. Each is a suspension point whose outcome is supplied as data. -/
structure AttachEnv where
  isConnected : Bool
  claudeRunning : Bool
  sessions : List TmuxSession
  hasSession : Bool
deriving DecidableEq

/-- The message of the MAX_SESSIONS error (manager.ts line 276). -/
def maxSessionsMsg (cfg : RelayConfig) : String :=
  "Maximum " ++ toString cfg.maxSessions ++
    " concurrent sessions reached. Detach or close a session first."

/-- The body TmuxManager.attach runs under the per-session lock
(manager.ts lines 247-293): reject when the bridge already has an active
connection; reject when a host Claude process uses the session; reject
MAX_SESSIONS when the tabs whose name starts with the literal prefix
"claude-" number at least maxSessions and this id's tab is not among
them; otherwise report the existing tab or create a new one. -/
def managerAttach (cfg : RelayConfig) (env : AttachEnv) (id : List Char) :
    Except SessionConflictError AttachOk :=
  if env.isConnected then
    Except.error ⟨"SESSION_ATTACHED", "Already connected from another device"⟩
  else if env.claudeRunning then
    Except.error ⟨"SESSION_CONFLICT",
      "Close Claude on your Mac first, or pick a different session"⟩
  else
    let claudeSessions :=
      env.sessions.filter (fun s => (("claude-").toList).isPrefixOf s.name)
    if cfg.maxSessions ≤ claudeSessions.length ∧
        (claudeSessions.find? (fun s => s.name == tmuxNameOf id)) =
          Option.none then
      Except.error ⟨"MAX_SESSIONS", maxSessionsMsg cfg⟩
    else if env.hasSession then
      Except.ok ⟨tmuxNameOf id, true⟩
    else
      Except.ok ⟨tmuxNameOf id, false⟩

/-- The error code of an attach result, if it failed. -/
def errCode (r : Except SessionConflictError AttachOk) : Option String :=
  match r with
  | Except.error e => some e.code
  | Except.ok _ => Option.none

/-- The characters the escape in isClaudeRunning (manager.ts line 397)
replaces: dot, star, plus, question mark, caret, dollar, both braces,
both parentheses, bar, both brackets and backslash. -/
def regexSpecials : List Char :=
  (".*+?^$\x7b\x7d()|[]\\").toList

/-- The regex escape of isClaudeRunning (manager.ts line 397):
`sessionId.replace(/[.*+?^$\x7b\x7d()|[\]\\]/g, "\\$&")` prefixes every
character of the class with a backslash and keeps the rest. -/
def regexEscape (id : List Char) : List Char :=
  (id.map (fun c =>
    if regexSpecials.contains c then ['\\', c] else [c])).flatten

/-- The pattern the later Manager revision passes to `pgrep -f`
(manager.ts lines 398-401): the literal "claude", not the configured cli
binary, then `.*--resume.*`, then the escaped id. The configuration is a
parameter to record that the pattern does not depend on it. -/
def pgrepPattern (cfg : RelayConfig) (id : List Char) : List Char :=
  ("claude.*--resume.*").toList ++ regexEscape id

/-- The pattern of the earlier Manager revision (manager.ts lines
190-193): the id is interpolated unescaped. -/
def pgrepPatternV1 (cfg : RelayConfig) (id : List Char) : List Char :=
  ("claude.*--resume.*").toList ++ id

/-- The pattern the claim and the spec prescribe:
`"<cli_binary>.*--resume.*<regex_escape(id)>"` built from the configured
binary. Stated from the spec's words, to be compared with pgrepPattern. -/
def claimedPattern (cfg : RelayConfig) (id : List Char) : List Char :=
  cfg.binary.toList ++ (".*--resume.*").toList ++ regexEscape id

/-- Outcome of the `pgrep -f` invocation: stdout on exit code 0, or the
catch branch (non-zero exit, pgrep missing). -/
inductive PgrepResult where
  | ok (stdout : List Char)
  | fail
deriving DecidableEq

/-- JavaScript String.trim on a character list: strip whitespace from
both ends. -/
def jsTrim (l : List Char) : List Char :=
  ((l.dropWhile Char.isWhitespace).reverse.dropWhile
    Char.isWhitespace).reverse

/-- The stdout handling of isClaudeRunning (manager.ts lines 398-405):
`stdout.trim().length > 0` on success, false on any failure. -/
def isClaudeRunningOf (r : PgrepResult) : Bool :=
  match r with
  | PgrepResult.ok out => decide (0 < (jsTrim out).length)
  | PgrepResult.fail => false

/-
Claim C9: the two PSK comparisons. The REST hook goes through verifyPsk
(src/daemon/src/auth.ts lines 13-18, 88-89), which length-checks and then
calls crypto.timingSafeEqual. The WebSocket upgrade handler compares with
plain string inequality (src/unnamed/part_001 lines 64-72:
`authParam !== config.auth.psk`). Each comparison is paired with a count
of the byte (or code-unit) comparisons it performs, the standard cost
model for timing: timingSafeEqual examines every byte of its equal-length
inputs, while JavaScript string equality can stop at the first
mismatching unit.
-/

/-- A byte buffer (Buffer.from of a UTF-8 string). -/
abbrev Bytes := List Nat

/-- verifyPsk (auth.ts lines 13-18): reject unequal lengths, otherwise
crypto.timingSafeEqual over the two buffers. -/
def verifyPsk (a b : Bytes) : Bool :=
  if a.length ≠ b.length then false
  else (a.zip b).all (fun p => p.1 == p.2)

/-- Number of byte comparisons verifyPsk performs: none on a length
mismatch, every byte otherwise (timingSafeEqual is constant-time over its
equal-length inputs). -/
def verifyPskCost (a b : Bytes) : Nat :=
  if a.length ≠ b.length then 0 else a.length

/-- Plain JavaScript string equality, as the WS handler's
`authParam !== config.auth.psk` evaluates it. -/
def jsStrEq : Bytes → Bytes → Bool
  | [], [] => true
  | a :: as, b :: bs => a == b && jsStrEq as bs
  | _, _ => false

/-- Unit comparisons performed by short-circuiting string equality: it
stops at the first mismatch, so for equal-length inputs the count depends
on the position of the first difference, not only on the length. -/
def jsStrEqCost : Bytes → Bytes → Nat
  | [], _ => 0
  | _, [] => 0
  | a :: as, b :: bs => if a == b then 1 + jsStrEqCost as bs else 1

/-- The WS upgrade authentication (part_001 lines 64-72): the query token
if present, else the bearer header; a missing or empty credential is
rejected, otherwise plain string equality against the PSK. -/
def wsAuthAccepts (tokenParam bearer : Option Bytes) (psk : Bytes) :
    Bool :=
  match tokenParam.orElse (fun _ => bearer) with
  | Option.none => false
  | some t => if t = [] then false else jsStrEq t psk

/-
Claim C10: the POST /api/sessions/:id/attach handler
(src/daemon/src/routes/attach.ts lines 7-69).
-/

/-- The module-level rate-limit map of attach.ts (line 8). -/
structure RouteState where
  lastAttachTime : List (String × Nat)
deriving DecidableEq

/-- Outcome of the awaited tmuxManager.attach call as the route sees it:
success, a SessionConflictError, or any other exception (rethrown by the
handler, surfacing as HTTP 500). -/
inductive AttachCall where
  | ok (tmuxSession : String) (existed : Bool)
  | conflictErr (code msg : String)
  | thrown
deriving DecidableEq

/-- The HTTP response of one attach request. -/
inductive HttpResp where
  | notFound
  | rateLimited
  | okJson (wsUrl tmuxSession : String) (existed : Bool)
  | conflict409 (code msg : String)
  | internal
deriving DecidableEq

/-- The attach route handler (attach.ts lines 19-69): unknown ids get 404
before the rate-limit map is read or written; a request inside the
5-second window gets 429 and leaves the map unchanged (a stored time of 0
is falsy in JavaScript and never rate-limits); otherwise the attempt time
is recorded before tmuxManager.attach is invoked, so the window starts
regardless of the attach outcome. -/
def postAttach (knownIds : List String) (st : RouteState) (id : String)
    (now : Nat) (res : AttachCall) : RouteState × HttpResp :=
  if knownIds.contains id = false then (st, HttpResp.notFound)
  else
    let limited := match jsMapGet st.lastAttachTime id with
                   | some t => t != 0 && decide (now - t < 5000)
                   | Option.none => false
    if limited then (st, HttpResp.rateLimited)
    else
      let st1 : RouteState :=
        { lastAttachTime := jsMapSet st.lastAttachTime id now }
      match res with
      | AttachCall.ok ts ex =>
          (st1, HttpResp.okJson ("/terminal/" ++ id) ts ex)
      | AttachCall.conflictErr c m => (st1, HttpResp.conflict409 c m)
      | AttachCall.thrown => (st1, HttpResp.internal)

/-
Claim C2: SessionLock.acquire of src/daemon/src/tmux/lock.ts (lines
5-27). Its promise discipline is: a caller finding a stored promise
awaits that one promise, then stores its own promise, runs fn, and on
completion resolves its promise (waking every caller that awaited it) and
deletes the map entry if still its own. The machine below embeds exactly
these steps for one session id. Call i denotes the i-th acquire call in
arrival order; fn bodies are opaque asynchronous functions, so a body is
an interval from its start to its settlement, with scheduler-chosen
interleaving at its await points.
-/

/-- Phase of one acquire call of lock.ts: parked on the promise it read
from the map (recorded by the index of the call that created that
promise), woken and about to proceed, running its fn body, or settled. -/
inductive LPhase where
  | waiting (k : Nat)
  | ready
  | running
  | settled
deriving DecidableEq

/-- State of the lock.ts machine for one session id: which call's promise
the map currently stores (none when absent), and each call's phase,
indexed by arrival order. -/
structure LockTsSt where
  mapOwner : Option Nat
  phase : List LPhase
deriving DecidableEq

/-- Events of the lock.ts machine. `call`: a new acquire arrives; it
reads the map once, parks on the stored promise if any, otherwise stores
its own promise and starts fn synchronously. `settle i`: call i's fn
settles; its finally resolves its promise, marking every call parked on
it ready, and deletes the map entry if still its own. `wake i`: a ready
call resumes on the event loop, stores its own promise and starts its
fn. -/
inductive LockTsEv where
  | call
  | settle (i : Nat)
  | wake (i : Nat)
deriving DecidableEq

/-- One step of the lock.ts machine; none when the event is not enabled. -/
def lockTsStep (s : LockTsSt) (e : LockTsEv) : Option LockTsSt :=
  match e with
  | LockTsEv.call =>
      match s.mapOwner with
      | some k => some { s with phase := s.phase ++ [LPhase.waiting k] }
      | Option.none =>
          some { mapOwner := some s.phase.length,
                 phase := s.phase ++ [LPhase.running] }
  | LockTsEv.settle i =>
      if s.phase.get? i = some LPhase.running then
        some { mapOwner := if s.mapOwner = some i then Option.none
                           else s.mapOwner,
               phase := (s.phase.set i LPhase.settled).map (fun p =>
                 match p with
                 | LPhase.waiting k =>
                     if k = i then LPhase.ready else LPhase.waiting k
                 | q => q) }
      else Option.none
  | LockTsEv.wake i =>
      if s.phase.get? i = some LPhase.ready then
        some { mapOwner := some i, phase := s.phase.set i LPhase.running }
      else Option.none

/-- Run the lock.ts machine from the empty state; none when some event
was not enabled. -/
def lockTsRun (evs : List LockTsEv) : Option LockTsSt :=
  evs.foldlM lockTsStep { mapOwner := Option.none, phase := [] }

/-
Helper lemmas about the JavaScript Map model.
-/

theorem jsMapGet_set_self {α : Type} (m : List (String × α)) (k : String)
    (v : α) : jsMapGet (jsMapSet m k v) k = some v := by
  induction m with
  | nil => simp [jsMapSet, jsMapGet]
  | cons p t ih =>
      by_cases h : p.1 = k
      · simp [jsMapSet, jsMapGet, h]
      · simp [jsMapSet, jsMapGet, h, ih]

theorem jsMapGet_set_ne {α : Type} (m : List (String × α)) (k k2 : String)
    (v : α) (h : k ≠ k2) :
    jsMapGet (jsMapSet m k v) k2 = jsMapGet m k2 := by
  induction m with
  | nil => simp [jsMapSet, jsMapGet, h]
  | cons p t ih =>
      by_cases hp : p.1 = k
      · have hk : k2 ≠ k := fun he => h he.symm
        simp [jsMapSet, jsMapGet, hp, hk, h]
      · by_cases hp2 : p.1 = k2
        · have hk2 : k2 ≠ k := fun he => h he.symm
          simp [jsMapSet, jsMapGet, hp, hp2, hk2]
        · simp [jsMapSet, jsMapGet, hp, hp2, ih]

theorem keys_jsMapSet {α : Type} (m : List (String × α)) (k : String)
    (v : α) :
    (jsMapSet m k v).map (fun p => p.1) =
      if (jsMapGet m k).isSome then m.map (fun p => p.1)
      else m.map (fun p => p.1) ++ [k] := by
  induction m with
  | nil => simp [jsMapSet, jsMapGet]
  | cons p t ih =>
      by_cases hp : p.1 = k
      · simp [jsMapSet, jsMapGet, hp]
      · cases hg : jsMapGet t k with
        | none => simp [jsMapSet, jsMapGet, hp, hg] at ih ⊢; exact ih
        | some w => simp [jsMapSet, jsMapGet, hp, hg] at ih ⊢; exact ih

theorem not_mem_keys_of_get_none {α : Type} (m : List (String × α))
    (k : String) (h : jsMapGet m k = Option.none) :
    k ∉ m.map (fun p => p.1) := by
  induction m with
  | nil => simp
  | cons p t ih =>
      by_cases hp : p.1 = k
      · simp [jsMapGet, hp] at h
      · simp only [jsMapGet, hp, if_false] at h
        simp only [List.map_cons, List.mem_cons]
        rintro (h2 | h2)
        · exact hp h2.symm
        · exact ih h h2

theorem nodupKeys_jsMapSet {α : Type} (m : List (String × α)) (k : String)
    (v : α) (h : nodupKeys m) : nodupKeys (jsMapSet m k v) := by
  unfold nodupKeys at h ⊢
  rw [keys_jsMapSet]
  cases hg : jsMapGet m k with
  | none =>
      simp only [hg, Option.isSome_none, Bool.false_eq_true, if_false]
      rw [List.nodup_append_comm]
      simp only [List.singleton_append, List.nodup_cons]
      exact ⟨not_mem_keys_of_get_none m k hg, h⟩
  | some w => simpa [hg] using h

theorem keys_jsMapDelete {α : Type} (m : List (String × α)) (k : String) :
    (jsMapDelete m k).map (fun p => p.1) =
      (m.map (fun p => p.1)).filter (fun x => x != k) := by
  induction m with
  | nil => simp [jsMapDelete]
  | cons p t ih =>
      by_cases hp : p.1 = k
      · simp [jsMapDelete, hp, List.filter_cons, ih]
      · simp [jsMapDelete, hp, List.filter_cons, ih]

theorem nodupKeys_jsMapDelete {α : Type} (m : List (String × α))
    (k : String) (h : nodupKeys m) : nodupKeys (jsMapDelete m k) := by
  unfold nodupKeys at h ⊢
  rw [keys_jsMapDelete]
  exact h.filter _

theorem jsMapGet_filter_not_mem {α : Type} (m : List (String × α))
    (seen : List String) (k : String) (h : k ∉ seen) :
    jsMapGet (m.filter (fun p => seen.contains p.1)) k = Option.none := by
  induction m with
  | nil => simp [jsMapGet]
  | cons p t ih =>
      by_cases hp : p.1 ∈ seen
      · have hpk : p.1 ≠ k := fun he => h (he ▸ hp)
        simp only [List.filter_cons, List.elem_iff, hp, jsMapGet, hpk,
          if_false, if_true, decide_eq_true_eq]
        simpa [List.elem_iff] using ih
      · simp only [List.filter_cons, List.elem_iff, hp, if_false,
          decide_eq_true_eq]
        simpa [List.elem_iff, hp] using ih

/-
Claim C1.
-/

/-- Claim C1: at most one active bridge exists per session id (the
per-id map keeps pairwise distinct keys across attach), and when a bridge
is already active for an id, a further TerminalBridge.attach for that id
closes the new socket with code 4409 and the reason
"Session already has an active terminal connection", leaves the whole
bridge state unchanged — so it installs no new bridge, spawns no PTY, and
the existing bridge is unaffected. -/
theorem bridgeAttach_single_connection_guard :
    (∀ (st : BridgeState) (id : String) (pid now : Nat),
      hasActiveTerminal st id = true →
      bridgeAttach st id pid now =
        (st, AttachOutcome.rejected 4409
          ("Session already has an active terminal connection"))) ∧
    (∀ (st : BridgeState) (id : String) (pid now : Nat),
      nodupKeys st.terminals →
      nodupKeys ((bridgeAttach st id pid now).1).terminals) := by
  constructor
  · intro st id pid now h
    simp [bridgeAttach, h]
  · intro st id pid now h
    by_cases ha : hasActiveTerminal st id
    · simp [bridgeAttach, ha, h]
    · simp only [bridgeAttach, ha, if_false]
      exact nodupKeys_jsMapSet st.terminals id _ h

/-- A bridge state with an active terminal for session id "a". -/
def bridgeStA : BridgeState :=
  { terminals := [("a", { ptyPid := 7, createdAt := 3, cleanedUp := false })],
    spawned := [7] }

/-- Witness for claim C1 at a concrete state: session "a" is active, and
a second attach for "a" is rejected with 4409 leaving the state intact. -/
theorem bridgeAttach_single_connection_guard_witness :
    hasActiveTerminal bridgeStA ("a") = true ∧
    bridgeAttach bridgeStA ("a") 9 5 =
      (bridgeStA, AttachOutcome.rejected 4409
        ("Session already has an active terminal connection")) ∧
    nodupKeys ((bridgeAttach bridgeStA ("a") 9 5).1).terminals :=
  ⟨by decide,
   bridgeAttach_single_connection_guard.1 bridgeStA ("a") 9 5 (by decide),
   bridgeAttach_single_connection_guard.2 bridgeStA ("a") 9 5
     (by simp [bridgeStA, nodupKeys])⟩

/-
Claim C3.
-/

set_option maxRecDepth 4000 in
/-- Counterexample to claim C3: this string has 101 code points (well
under 200), yet extractPreview does not return it unchanged and appends
the ellipsis, because the source truncates on `text.length`, which counts
UTF-16 code units (202 here). -/
theorem extractPreview_code_point_counterexample :
    codePointCount astral101 = 101 ∧
    astral101.length = 202 ∧
    extractPreview (some (JsContent.str astral101)) ≠ astral101 ∧
    jsEllipsis <:+ extractPreview (some (JsContent.str astral101)) := by
  decide

/-- Claim C3 as amended: extractPreview truncates on UTF-16 code units,
not code points. For every input string s (as the content string; the
same truncation serves the text of the first block typed "text"), the
result has at most 203 code units, a string of at most 200 code units is
returned unchanged, and a string of more than 200 code units becomes its
first 200 code units followed by "..." — so the result ends with "..."
whenever the input exceeds 200 code units (only the forward direction
holds: an input that itself ends in "..." is returned unchanged). -/
theorem extractPreview_truncation_amended :
    ∀ s : JsStr,
      extractPreview (some (JsContent.str s)) = truncatePreview s ∧
      (truncatePreview s).length ≤ 203 ∧
      (s.length ≤ 200 → truncatePreview s = s) ∧
      (200 < s.length →
        truncatePreview s = s.take 200 ++ jsEllipsis ∧
        jsEllipsis <:+ truncatePreview s ∧
        (truncatePreview s).length = 203) := by
  intro s
  refine ⟨?_, ?_, ?_, ?_⟩
  · cases s with
    | nil => simp [extractPreview, truncatePreview]
    | cons a t => rfl
  · by_cases hlen : s.length > 200
    · unfold truncatePreview
      rw [if_pos hlen]
      simp only [List.length_append, List.length_take, jsEllipsis,
        List.length_cons, List.length_nil]
      omega
    · unfold truncatePreview
      rw [if_neg hlen]
      omega
  · intro hle
    unfold truncatePreview
    rw [if_neg (by omega)]
  · intro hgt
    unfold truncatePreview
    rw [if_pos hgt]
    refine ⟨rfl, ⟨s.take 200, rfl⟩, ?_⟩
    simp only [List.length_append, List.length_take, jsEllipsis,
      List.length_cons, List.length_nil]
    omega

set_option maxRecDepth 4000 in
/-- Witness for the amended claim C3 at a concrete 201-code-unit string:
it is truncated to its first 200 units plus the ellipsis. -/
theorem extractPreview_truncation_amended_witness :
    (List.replicate 201 97).length ≤ 200 ∨
    (200 < (List.replicate 201 97).length ∧
      truncatePreview (List.replicate 201 97) =
        (List.replicate 201 97).take 200 ++ jsEllipsis) :=
  Or.inr ⟨by decide,
    ((extractPreview_truncation_amended (List.replicate 201 97)).2.2.2
      (by decide)).1⟩

/-
Claim C10.
-/

/-- Claim C10: the attach route records the attempt time before invoking
Manager.attach, so a second request for the same known id less than 5
seconds later is answered 429 whatever the first attach returned
(success, SESSION_ATTACHED, SESSION_CONFLICT, MAX_SESSIONS as a 409, or
a rethrown error); and an unknown id is answered 404 with the rate-limit
map untouched, so it does not start the 5-second window. The time of the
first request is positive, as Date.now always is (a stored 0 would be
falsy in the source's guard). -/
theorem postAttach_rate_limit_window :
    (∀ (ids : List String) (st : RouteState) (id : String) (t1 t2 : Nat)
       (r1 r2 : AttachCall),
      ids.contains id = true →
      jsMapGet st.lastAttachTime id = Option.none →
      0 < t1 → t2 - t1 < 5000 →
      (postAttach ids (postAttach ids st id t1 r1).1 id t2 r2).2 =
        HttpResp.rateLimited) ∧
    (∀ (ids : List String) (st : RouteState) (id : String) (now : Nat)
       (r : AttachCall),
      ids.contains id = false →
      postAttach ids st id now r = (st, HttpResp.notFound)) := by
  constructor
  · intro ids st id t1 t2 r1 r2 hknown hnone ht1 hwin
    have hfst : (postAttach ids st id t1 r1).1 =
        { lastAttachTime := jsMapSet st.lastAttachTime id t1 } := by
      unfold postAttach
      simp only [hknown, hnone]
      cases r1 <;> simp
    rw [hfst]
    unfold postAttach
    have hget : jsMapGet (jsMapSet st.lastAttachTime id t1) id = some t1 :=
      jsMapGet_set_self _ _ _
    have ht1ne : (t1 != 0) = true := by
      simp only [bne_iff_ne, ne_eq]
      omega
    simp only [hknown, hget, ht1ne, hwin]
    simp
  · intro ids st id now r hunknown
    have hnot : ¬ id ∈ ids := by
      intro hmem
      have h2 : ids.contains id = true := by
        simpa [List.elem_iff] using hmem
      rw [h2] at hunknown
      cases hunknown
    unfold postAttach
    simp [hunknown, hnot]

/-- Witness for claim C10: a first attach for the known id "a" at time
100 fails with a 409 conflict, and a second request at time 4099 is
nevertheless rate-limited; the unknown id "z" gets 404 and starts no
window. -/
theorem postAttach_rate_limit_window_witness :
    (postAttach ["a"]
      (postAttach ["a"] { lastAttachTime := [] } ("a") 100
        (AttachCall.conflictErr ("SESSION_CONFLICT") ("busy"))).1
      ("a") 4099 (AttachCall.ok ("claude-a") true)).2 =
        HttpResp.rateLimited ∧
    postAttach ["a"] { lastAttachTime := [] } ("z") 100 AttachCall.thrown =
      ({ lastAttachTime := [] }, HttpResp.notFound) :=
  ⟨postAttach_rate_limit_window.1 ["a"] { lastAttachTime := [] } ("a")
      100 4099 (AttachCall.conflictErr ("SESSION_CONFLICT") ("busy"))
      (AttachCall.ok ("claude-a") true) (by decide) (by decide)
      (by decide) (by decide),
   postAttach_rate_limit_window.2 ["a"] { lastAttachTime := [] } ("z")
      100 AttachCall.thrown (by decide)⟩

/-
Claim C2.
-/

/-- Claim C2 fails on lock.ts: with three concurrent acquire calls for
one session id, calls 1 and 2 both read call 0's promise and park on it;
when call 0's fn settles, the finally resolves that one promise, so both
waiters are woken, and each in turn stores its own promise and starts its
fn — the machine reaches a state in which the fn bodies of calls 1 and 2
are running at the same time, violating per-id mutual exclusion. Every
step of this trace is the scheduling the JavaScript event loop actually
produces (waiters resume in FIFO order; each fn body suspends at its
first await). -/
theorem lockTs_two_waiters_run_concurrently :
    lockTsRun [LockTsEv.call, LockTsEv.call, LockTsEv.call,
               LockTsEv.settle 0, LockTsEv.wake 1, LockTsEv.wake 2] =
      some { mapOwner := some 2,
             phase := [LPhase.settled, LPhase.running, LPhase.running] } ∧
    ((lockTsRun [LockTsEv.call, LockTsEv.call, LockTsEv.call,
        LockTsEv.settle 0, LockTsEv.wake 1, LockTsEv.wake 2]).map
      (fun s => decide (s.phase.get? 1 = some LPhase.running ∧
                        s.phase.get? 2 = some LPhase.running))) =
      some true := by
  decide

/-
Claim C6.
-/

/-- A metadata entry whose advisory status records an existing, attached
tab for session "s": the index's last observation of the multiplexer says
a tab references this session. -/
def mdActiveS : SessionMetadata :=
  { id := "s", projectPath := "/p", projectHash := "h",
    lastMessagePreview := "hi", lastMessageRole := Role.user,
    timestamp := 5, cliVersion := "1", tmuxStatus := TmuxStatus.active }

/-- Counterexample to claim C6: session "s" has metadata marking its tab
active (and fullScan takes no input from the Manager or the Bridge at
all, so it cannot consult either), its log file is gone, and the next
full rescan removes the entry anyway — the claim's "unless a tab or an
active bridge still references the id" exception does not exist in the
code. -/
theorem fullScan_removes_referenced_entry_counterexample :
    mdActiveS.tmuxStatus = TmuxStatus.active ∧
    (fullScan 9 [] { sessions := [("s", mdActiveS)], mtimeCache := [] }).sessions = [] := by
  decide

/-- Claim C6 as amended: for every session id whose log file no longer
exists under the root, the next full rescan removes that id's metadata
entry unconditionally — even when a multiplexer tab or an active bridge
still references the id. -/
theorem fullScan_removal_unconditional :
    ∀ (now : Nat) (dirs : List ProjectDir) (st : DiscoveryState)
      (id : String),
      id ∉ scanSeen dirs →
      jsMapGet (fullScan now dirs st).sessions id = Option.none := by
  intro now dirs st id h
  unfold fullScan
  exact jsMapGet_filter_not_mem _ _ _ h

/-- Witness for the amended claim C6: a state holding session "t" whose
file is absent from the (empty) root loses the entry on rescan. -/
theorem fullScan_removal_unconditional_witness :
    jsMapGet (fullScan 1 []
      { sessions := [("t", mdActiveS)], mtimeCache := [] }).sessions
      ("t") = Option.none :=
  fullScan_removal_unconditional 1 []
    { sessions := [("t", mdActiveS)], mtimeCache := [] } ("t") (by decide)

/-
Claim C7.
-/

/-- Counterexample to claim C7: a watcher change event for the file
"a.jsonl" whose read fails, with no prior metadata for session "a",
inserts nothing — the catch branch of onFileChange only logs, so the
watcher path does not share fullScan's placeholder contract. -/
theorem onFileChange_no_placeholder_counterexample :
    onFileChange ("a.jsonl") ("h") FileOutcome.statError
      { sessions := [], mtimeCache := [] } =
      { sessions := [], mtimeCache := [] } ∧
    jsMapGet (onFileChange ("a.jsonl") ("h") FileOutcome.statError
      { sessions := [], mtimeCache := [] }).sessions ("a") =
      Option.none := by
  decide

/-- Claim C7 as amended: within a full rescan, a read or stat failure on
a file inserts the placeholder entry (empty project path, preview
"(unable to read)", unknown role, timestamp now, status none) when the
session has no prior metadata, leaves existing metadata untouched when it
does, never touches other entries and never aborts the pass (the
per-file step is total and removal happens only in the final sweep); but
a watcher add or change event whose re-parse fails leaves the whole index
unchanged — it does not share the placeholder contract. -/
theorem scanFile_read_failure_contract_amended :
    (∀ (now : Nat) (hash sid : String) (st : DiscoveryState),
      jsMapGet st.sessions sid = Option.none →
      (scanFile now hash st ⟨sid, FileOutcome.statError⟩).sessions =
        jsMapSet st.sessions sid (placeholderMetadata sid hash now) ∧
      (scanFile now hash st ⟨sid, FileOutcome.statError⟩).mtimeCache =
        st.mtimeCache) ∧
    (∀ (now : Nat) (hash sid : String) (st : DiscoveryState),
      (jsMapGet st.sessions sid).isSome = true →
      scanFile now hash st ⟨sid, FileOutcome.statError⟩ = st) ∧
    (∀ (now : Nat) (hash sid other : String) (st : DiscoveryState),
      other ≠ sid →
      jsMapGet (scanFile now hash st
          ⟨sid, FileOutcome.statError⟩).sessions other =
        jsMapGet st.sessions other) ∧
    (∀ (fileName hash : String) (st : DiscoveryState),
      onFileChange fileName hash FileOutcome.statError st = st) := by
  refine ⟨?_, ?_, ?_, ?_⟩
  · intro now hash sid st h
    simp [scanFile, h]
  · intro now hash sid st h
    simp [scanFile, h]
  · intro now hash sid other st hne
    by_cases h : (jsMapGet st.sessions sid).isSome
    · simp [scanFile, h]
    · simp only [Bool.not_eq_true] at h
      simp only [scanFile, h, Bool.false_eq_true, if_false]
      exact jsMapGet_set_ne _ _ _ _ (fun he => hne he.symm)
  · intro fileName hash st
    by_cases h : jsEndsWith fileName (".jsonl")
    · simp [onFileChange, h]
    · simp [onFileChange, h]

/-- Witness for the amended claim C7 at concrete inputs: with no prior
metadata for "a", the rescan step inserts exactly the placeholder, a
prior entry survives untouched, and the watcher path changes nothing. -/
theorem scanFile_read_failure_contract_amended_witness :
    (scanFile 4 ("h") { sessions := [], mtimeCache := [] }
        ⟨"a", FileOutcome.statError⟩).sessions =
      jsMapSet [] ("a") (placeholderMetadata ("a") ("h") 4) ∧
    scanFile 4 ("h") { sessions := [("s", mdActiveS)], mtimeCache := [] }
        ⟨"s", FileOutcome.statError⟩ =
      { sessions := [("s", mdActiveS)], mtimeCache := [] } ∧
    onFileChange ("b.jsonl") ("h") FileOutcome.statError
        { sessions := [("s", mdActiveS)], mtimeCache := [] } =
      { sessions := [("s", mdActiveS)], mtimeCache := [] } :=
  ⟨(scanFile_read_failure_contract_amended.1 4 ("h") ("a")
      { sessions := [], mtimeCache := [] } (by decide)).1,
   scanFile_read_failure_contract_amended.2.1 4 ("h") ("s")
      { sessions := [("s", mdActiveS)], mtimeCache := [] } (by decide),
   scanFile_read_failure_contract_amended.2.2.2 ("b.jsonl") ("h")
      { sessions := [("s", mdActiveS)], mtimeCache := [] }⟩

/-
Claim C5.
-/

theorem find?_filter_isSome {α : Type} (l : List α) (p q : α → Bool)
    (himp : ∀ a, q a = true → p a = true) (h : (l.find? q).isSome) :
    ((l.filter p).find? q).isSome := by
  induction l with
  | nil => simp [List.find?] at h
  | cons a t ih =>
      cases hq : q a with
      | true =>
          have hp : p a = true := himp a hq
          simp [List.filter_cons, hp, List.find?, hq]
      | false =>
          rw [List.find?] at h
          rw [hq] at h
          by_cases hp : p a
          · simp only [List.filter_cons, hp, if_true, List.find?, hq]
            exact ih h
          · simp only [List.filter_cons, hp, Bool.false_eq_true, if_false]
            exact ih h

/-- The presence of this session's own tab among the prefixed tabs: the
predicate of the find? in check 3 implies the filter's predicate, because
the tab name "claude-" ++ id carries the prefix. -/
theorem find?_claude_filter {l : List TmuxSession} {id : List Char}
    (h : (l.find? (fun s => s.name == tmuxNameOf id)).isSome) :
    ((l.filter (fun s => (("claude-").toList).isPrefixOf s.name)).find?
      (fun s => s.name == tmuxNameOf id)).isSome := by
  refine find?_filter_isSome l _ _ (fun a ha => ?_) h
  have : a.name = tmuxNameOf id := by simpa using ha
  rw [this, List.isPrefixOf_iff_prefix]
  exact ⟨id, rfl⟩

/-- A one-tab environment already at the cap, with the attach blocked
earlier by an active bridge connection. -/
def envAttachedFull : AttachEnv :=
  { isConnected := true, claudeRunning := false,
    sessions := [{ name := ("claude-x").toList, attached := false,
                   created := 0 }],
    hasSession := false }

/-- A configuration with a cap of one tab. -/
def cfgMax1 : RelayConfig :=
  { binary := "claude", maxSessions := 1, defaultCols := 120,
    defaultRows := 40 }

/-- Counterexample to claim C5: the claimed condition for MAX_SESSIONS
holds (one prefixed tab, cap one, and no tab for session "y"), yet attach
does not fail with MAX_SESSIONS — it fails with SESSION_ATTACHED, because
the active-connection check precedes the cap check. The claimed
equivalence is therefore false as stated. -/
theorem managerAttach_max_sessions_counterexample :
    (cfgMax1.maxSessions ≤
      ((envAttachedFull.sessions.filter
        (fun s => (("claude-").toList).isPrefixOf s.name)).length) ∧
     ((envAttachedFull.sessions.filter
        (fun s => (("claude-").toList).isPrefixOf s.name)).find?
        (fun s => s.name == tmuxNameOf (("y").toList))) = Option.none) ∧
    errCode (managerAttach cfgMax1 envAttachedFull (("y").toList)) =
      some ("SESSION_ATTACHED") := by
  decide

/-- Claim C5 as amended: Manager.attach(id) fails with MAX_SESSIONS if
and only if the two earlier checks pass (no active bridge connection and
no competing host process) and the tabs carrying the fixed prefix
"claude-" number at least max_sessions with tab_name(id) not among them.
In particular, whenever a tab for id exists, attach never fails with
MAX_SESSIONS, regardless of the tab count. -/
theorem managerAttach_unfolded (cfg : RelayConfig) (env : AttachEnv)
    (id : List Char) :
    managerAttach cfg env id =
      (if env.isConnected then
        Except.error ⟨"SESSION_ATTACHED",
          "Already connected from another device"⟩
      else if env.claudeRunning then
        Except.error ⟨"SESSION_CONFLICT",
          "Close Claude on your Mac first, or pick a different session"⟩
      else if cfg.maxSessions ≤
            (env.sessions.filter
              (fun s => (("claude-").toList).isPrefixOf s.name)).length ∧
          ((env.sessions.filter
              (fun s => (("claude-").toList).isPrefixOf s.name)).find?
            (fun s => s.name == tmuxNameOf id)) = Option.none then
        Except.error ⟨"MAX_SESSIONS", maxSessionsMsg cfg⟩
      else if env.hasSession then Except.ok ⟨tmuxNameOf id, true⟩
      else Except.ok ⟨tmuxNameOf id, false⟩) := rfl

theorem managerAttach_max_sessions_amended :
    ∀ (cfg : RelayConfig) (env : AttachEnv) (id : List Char),
      (errCode (managerAttach cfg env id) = some ("MAX_SESSIONS") ↔
        env.isConnected = false ∧ env.claudeRunning = false ∧
        cfg.maxSessions ≤
          (env.sessions.filter
            (fun s => (("claude-").toList).isPrefixOf s.name)).length ∧
        ((env.sessions.filter
            (fun s => (("claude-").toList).isPrefixOf s.name)).find?
          (fun s => s.name == tmuxNameOf id)) = Option.none) ∧
      ((env.sessions.find? (fun s => s.name == tmuxNameOf id)).isSome →
        errCode (managerAttach cfg env id) ≠ some ("MAX_SESSIONS")) := by
  intro cfg env id
  rw [managerAttach_unfolded]
  constructor
  · cases hc : env.isConnected with
    | true =>
        rw [if_pos rfl]
        exact iff_of_false (by simp [errCode])
          (fun h => Bool.noConfusion h.1)
    | false =>
        rw [if_neg Bool.false_ne_true]
        cases hr : env.claudeRunning with
        | true =>
            rw [if_pos rfl]
            exact iff_of_false (by simp [errCode])
              (fun h => Bool.noConfusion h.2.1)
        | false =>
            rw [if_neg Bool.false_ne_true]
            by_cases hmax : cfg.maxSessions ≤
                (env.sessions.filter
                  (fun s => (("claude-").toList).isPrefixOf s.name)).length ∧
                ((env.sessions.filter
                  (fun s => (("claude-").toList).isPrefixOf s.name)).find?
                  (fun s => s.name == tmuxNameOf id)) = Option.none
            · rw [if_pos hmax]
              exact iff_of_true rfl ⟨rfl, rfl, hmax.1, hmax.2⟩
            · rw [if_neg hmax]
              refine iff_of_false ?_ (fun h => hmax ⟨h.2.2.1, h.2.2.2⟩)
              by_cases hs : env.hasSession
              · rw [if_pos hs]; simp [errCode]
              · rw [if_neg hs]; simp [errCode]
  · intro hfind heq
    have hfiltered := find?_claude_filter hfind
    have hne : ¬ (cfg.maxSessions ≤
        (env.sessions.filter
          (fun s => (("claude-").toList).isPrefixOf s.name)).length ∧
        ((env.sessions.filter
          (fun s => (("claude-").toList).isPrefixOf s.name)).find?
          (fun s => s.name == tmuxNameOf id)) = Option.none) := by
      rintro ⟨-, hnone⟩
      rw [hnone] at hfiltered
      simp at hfiltered
    by_cases hc : env.isConnected
    · rw [if_pos hc] at heq
      simp [errCode] at heq
    · rw [if_neg hc] at heq
      by_cases hr : env.claudeRunning
      · rw [if_pos hr] at heq
        simp [errCode] at heq
      · rw [if_neg hr] at heq
        rw [if_neg hne] at heq
        by_cases hs : env.hasSession
        · rw [if_pos hs] at heq; simp [errCode] at heq
        · rw [if_neg hs] at heq; simp [errCode] at heq

/-- Witness for the amended claim C5: with both earlier checks passing,
one prefixed tab, cap one and no tab for "y", attach fails with
MAX_SESSIONS; and for session "x", whose tab exists, it does not. -/
theorem managerAttach_max_sessions_amended_witness :
    errCode (managerAttach cfgMax1
      { envAttachedFull with isConnected := false } (("y").toList)) =
      some ("MAX_SESSIONS") ∧
    errCode (managerAttach cfgMax1
      { envAttachedFull with isConnected := false } (("x").toList)) ≠
      some ("MAX_SESSIONS") :=
  ⟨(managerAttach_max_sessions_amended cfgMax1
      { envAttachedFull with isConnected := false } (("y").toList)).1.mpr
      (by decide),
   (managerAttach_max_sessions_amended cfgMax1
      { envAttachedFull with isConnected := false } (("x").toList)).2
      (by decide)⟩

/-
Claim C4.
-/

theorem mem_dropWhile_of_neg {α : Type} (p : α → Bool) :
    ∀ (l : List α) (x : α), x ∈ l → p x = false → x ∈ l.dropWhile p := by
  intro l
  induction l with
  | nil => intro x hx; cases hx
  | cons a t ih =>
      intro x hx hpx
      cases hpa : p a with
      | true =>
          rw [List.dropWhile_cons_of_pos hpa]
          rcases List.mem_cons.mp hx with h | h
          · rw [h] at hpx; rw [hpx] at hpa; cases hpa
          · exact ih x h hpx
      | false =>
          rw [List.dropWhile_cons_of_neg (by simp [hpa])]
          exact hx

/-- A character list containing a non-whitespace character does not trim
to the empty list. -/
theorem jsTrim_ne_nil {l : List Char} {c : Char} (hc : c ∈ l)
    (hw : c.isWhitespace = false) : jsTrim l ≠ [] := by
  intro hnil
  unfold jsTrim at hnil
  rw [List.reverse_eq_nil_iff] at hnil
  rw [List.dropWhile_eq_nil_iff] at hnil
  have h1 : c ∈ (l.dropWhile Char.isWhitespace) :=
    mem_dropWhile_of_neg _ l c hc hw
  have h2 : c ∈ (l.dropWhile Char.isWhitespace).reverse :=
    List.mem_reverse.mpr h1
  have := hnil c h2
  rw [hw] at this
  cases this

/-- A configuration whose cli binary is not the default "claude". -/
def cfgMycli : RelayConfig :=
  { binary := "mycli", maxSessions := 5, defaultCols := 120,
    defaultRows := 40 }

/-- Counterexample to claim C4: the pattern isClaudeRunning passes to
`pgrep -f` interpolates the literal "claude", not the configured cli
binary, so with `claude.binary = "mycli"` the actual pattern differs from
the claimed "<cli_binary>.*--resume.*<escaped_id>". -/
theorem pgrepPattern_ignores_binary_counterexample :
    cfgMycli.binary = "mycli" ∧
    pgrepPattern cfgMycli (("s").toList) =
      ("claude.*--resume.*s").toList ∧
    claimedPattern cfgMycli (("s").toList) =
      ("mycli.*--resume.*s").toList ∧
    pgrepPattern cfgMycli (("s").toList) ≠
      claimedPattern cfgMycli (("s").toList) := by
  decide

/-- Claim C4 as amended: in the injected-predicate Manager revision the
session id is regex-escaped — the escape is a homomorphism on
concatenation that prefixes each of the characters dot, star, plus,
question mark, caret, dollar, braces, parentheses, bar, brackets and
backslash with a backslash and keeps every other character — and is then
interpolated into the pattern "claude.*--resume.*<escaped_id>", whose
leading literal is the fixed string "claude" rather than the configured
cli binary (the two agree exactly under the default binary "claude"); the
earlier Manager revision interpolates the id unescaped. A pgrep success
whose stdout contains any non-whitespace character (as a PID listing
does) makes attach fail with SESSION_CONFLICT, and a non-zero pgrep exit
means no conflict. -/
theorem isClaudeRunning_pattern_amended :
    (∀ (cfg cfg2 : RelayConfig) (id : List Char),
      pgrepPattern cfg id = pgrepPattern cfg2 id) ∧
    (∀ a b : List Char,
      regexEscape (a ++ b) = regexEscape a ++ regexEscape b) ∧
    (∀ c : Char, regexSpecials.contains c = true →
      regexEscape [c] = ['\\', c]) ∧
    (∀ c : Char, regexSpecials.contains c = false →
      regexEscape [c] = [c]) ∧
    (∀ (cfg : RelayConfig) (id : List Char), cfg.binary = "claude" →
      claimedPattern cfg id = pgrepPattern cfg id) ∧
    (pgrepPatternV1 defaultConfig (("a.b").toList) ≠
      pgrepPattern defaultConfig (("a.b").toList)) ∧
    (∀ (out : List Char) (c : Char), c ∈ out →
      c.isWhitespace = false →
      isClaudeRunningOf (PgrepResult.ok out) = true) ∧
    (isClaudeRunningOf PgrepResult.fail = false) := by
  refine ⟨?_, ?_, ?_, ?_, ?_, ?_, ?_, rfl⟩
  · intro cfg cfg2 id
    rfl
  · intro a b
    simp [regexEscape]
  · intro c h
    have hm : c ∈ regexSpecials := by simpa using h
    simp [regexEscape, hm]
  · intro c h
    have hm : c ∉ regexSpecials := by simpa using h
    simp [regexEscape, hm]
  · intro cfg id hbin
    unfold claimedPattern pgrepPattern
    rw [hbin]
    have h3 : ("claude").toList ++ (".*--resume.*").toList =
        ("claude.*--resume.*").toList := by decide
    rw [h3]
  · decide
  · intro out c hc hw
    unfold isClaudeRunningOf
    have := jsTrim_ne_nil hc hw
    simp only [decide_eq_true_eq]
    exact List.length_pos.mpr this

/-- Witness for the amended claim C4 at concrete inputs: the id
"a.b$c" escapes to "a\.b\$c", the pattern around it carries the fixed
"claude" literal, and a pgrep stdout of one PID line yields a conflict
while a failing pgrep yields none. -/
theorem isClaudeRunning_pattern_amended_witness :
    regexEscape (("a.b$c").toList) = ("a\\.b\\$c").toList ∧
    regexEscape (("a").toList ++ (".").toList) =
      regexEscape (("a").toList) ++ regexEscape ((".").toList) ∧
    claimedPattern defaultConfig (("x").toList) =
      pgrepPattern defaultConfig (("x").toList) ∧
    isClaudeRunningOf (PgrepResult.ok (("123\n").toList)) = true ∧
    isClaudeRunningOf PgrepResult.fail = false :=
  ⟨by decide,
   isClaudeRunning_pattern_amended.2.1 (("a").toList) ((".").toList),
   isClaudeRunning_pattern_amended.2.2.2.2.1 defaultConfig (("x").toList)
     (by decide),
   isClaudeRunning_pattern_amended.2.2.2.2.2.2.1 (("123\n").toList)
     ('1') (by decide) (by decide),
   isClaudeRunning_pattern_amended.2.2.2.2.2.2.2⟩

/-
Claim C9.
-/

theorem zip_self_mem_eq {p : Nat × Nat} :
    ∀ l : Bytes, p ∈ l.zip l → p.1 = p.2 := by
  intro l
  induction l with
  | nil => intro hp; cases hp
  | cons y ys ihy =>
      intro hp
      rcases List.mem_cons.mp hp with h2 | h2
      · rw [h2]
      · exact ihy h2

theorem jsStrEq_iff : ∀ a b : Bytes, jsStrEq a b = true ↔ a = b := by
  intro a
  induction a with
  | nil =>
      intro b
      cases b with
      | nil => simp [jsStrEq]
      | cons y ys => simp [jsStrEq]
  | cons x xs ih =>
      intro b
      cases b with
      | nil => simp [jsStrEq]
      | cons y ys =>
          simp only [jsStrEq, Bool.and_eq_true, beq_iff_eq, ih,
            List.cons.injEq]

/-- Counterexample to claim C9: the WebSocket token check is a plain
string comparison, and under the standard left-to-right short-circuit
cost model it is not constant-time over equal-length inputs — two
equal-length candidate/PSK pairs take a different number of unit
comparisons, revealing the position of the first mismatch. -/
theorem wsPskCompare_not_constant_time_counterexample :
    ([1, 2] : Bytes).length = ([9, 2] : Bytes).length ∧
    ([1, 2] : Bytes).length = ([1, 9] : Bytes).length ∧
    jsStrEq [1, 2] [9, 2] = false ∧ jsStrEq [1, 2] [1, 9] = false ∧
    jsStrEqCost [1, 2] [9, 2] = 1 ∧ jsStrEqCost [1, 2] [1, 9] = 2 ∧
    jsStrEqCost [1, 2] [9, 2] ≠ jsStrEqCost [1, 2] [1, 9] := by
  decide

/-- Claim C9 as amended: the REST bearer check (verifyPsk) rejects
unequal-length buffers with zero byte comparisons and compares
equal-length buffers in a number of byte comparisons that depends only on
the length (so it is constant-time over equal-length buffers), and its
result is exact equality; the WebSocket token/bearer check instead uses
ordinary string equality — its result is still exact equality, but its
comparison count is not constant over equal-length inputs. -/
theorem pskComparisons_amended :
    (∀ a b : Bytes, a.length ≠ b.length →
      verifyPsk a b = false ∧ verifyPskCost a b = 0) ∧
    (∀ a b : Bytes, a.length = b.length → verifyPskCost a b = a.length) ∧
    (∀ a b : Bytes, verifyPsk a b = true ↔ a = b) ∧
    (∀ t psk : Bytes, t ≠ [] →
      (wsAuthAccepts (some t) Option.none psk = true ↔ t = psk)) ∧
    (jsStrEqCost [1, 2] [9, 2] ≠ jsStrEqCost [1, 2] [1, 9]) := by
  refine ⟨?_, ?_, ?_, ?_, by decide⟩
  · intro a b h
    simp [verifyPsk, verifyPskCost, h]
  · intro a b h
    simp [verifyPskCost, h]
  · intro a b
    constructor
    · intro h
      unfold verifyPsk at h
      by_cases hl : a.length = b.length
      · rw [if_neg (by simp [hl])] at h
        have hall := List.all_eq_true.mp h
        apply List.ext_get hl
        intro n h1 h2
        have hmem : (a.get ⟨n, h1⟩, b.get ⟨n, h2⟩) ∈ a.zip b := by
          have : (a.zip b).get ⟨n, by simp [List.length_zip]; omega⟩ =
              (a.get ⟨n, h1⟩, b.get ⟨n, h2⟩) := by
            simp [List.get_zip]
          rw [← this]
          exact List.get_mem _ _ _
        have := hall _ hmem
        simpa using this
      · rw [if_pos hl] at h
        cases h
    · intro h
      rw [h]
      unfold verifyPsk
      rw [if_neg (by simp)]
      rw [List.all_eq_true]
      intro p hp
      have hz : p.1 = p.2 := zip_self_mem_eq b hp
      simp [hz]
  · intro t psk ht
    unfold wsAuthAccepts
    simp only [Option.orElse]
    rw [if_neg ht]
    exact jsStrEq_iff t psk

/-- Witness for the amended claim C9 at concrete buffers: an
unequal-length pair is rejected at zero cost, an equal-length pair costs
exactly its length, equality is exact, and the WS check accepts the
matching token. -/
theorem pskComparisons_amended_witness :
    (verifyPsk [1, 2, 3] [1, 2] = false ∧
      verifyPskCost [1, 2, 3] [1, 2] = 0) ∧
    verifyPskCost [1, 2, 3] [4, 5, 6] = ([1, 2, 3] : Bytes).length ∧
    verifyPsk [1, 2, 3] [1, 2, 3] = true ∧
    wsAuthAccepts (some [7, 8]) Option.none [7, 8] = true :=
  ⟨pskComparisons_amended.1 [1, 2, 3] [1, 2] (by decide),
   pskComparisons_amended.2.1 [1, 2, 3] [4, 5, 6] (by decide),
   (pskComparisons_amended.2.2.1 [1, 2, 3] [1, 2, 3]).mpr rfl,
   (pskComparisons_amended.2.2.2.1 [7, 8] [7, 8] (by decide)).mpr rfl⟩

/-
Claim C8.
-/

theorem sublist_flatten_of_sublist {l1 l2 : List Chunk}
    (h : List.Sublist l1 l2) : List.Sublist l1.flatten l2.flatten := by
  induction h with
  | slnil => exact List.Sublist.refl _
  | cons a h2 ih =>
      rw [List.flatten_cons]
      exact ih.trans ((List.nil_sublist a).append (List.Sublist.refl _))
  | cons₂ a h2 ih =>
      rw [List.flatten_cons, List.flatten_cons]
      exact (List.Sublist.refl a).append ih

theorem evChunks_cons (e : OutEv) (rest : List OutEv) :
    evChunks (e :: rest) =
      (match e with
       | OutEv.data c => c :: evChunks rest
       | _ => evChunks rest) := by
  cases e <;> simp [evChunks, List.filterMap_cons]

/-- The drop branch of onData: enqueuing would exceed the cap, so all
buffered output is dropped and the chunk appended alone. -/
theorem onData_drop (st : OutState) (c : Chunk)
    (hover : OUTPUT_BUFFER_MAX < st.bufferSize + c.length) :
    onData st c =
      { buffer := [c], bufferSize := c.length, sent := st.sent } := by
  unfold onData
  rw [if_pos hover]
  simp

/-- The plain branch of onData: the chunk fits, so it is appended. -/
theorem onData_append (st : OutState) (c : Chunk)
    (hle : st.bufferSize + c.length ≤ OUTPUT_BUFFER_MAX) :
    onData st c =
      { buffer := st.buffer ++ [c],
        bufferSize := st.bufferSize + c.length, sent := st.sent } := by
  unfold onData
  rw [if_neg (by omega)]

theorem flushOutput_nil (st : OutState) (canSend : Bool)
    (hb : st.buffer = []) : flushOutput st canSend = st := by
  unfold flushOutput
  rw [if_pos hb]

theorem flushOutput_send (st : OutState) (hb : st.buffer ≠ []) :
    flushOutput st true =
      { buffer := [], bufferSize := 0, sent := st.sent ++ st.buffer } := by
  unfold flushOutput
  rw [if_neg hb, if_pos rfl]

theorem flushOutput_blocked (st : OutState) :
    flushOutput st false = st := by
  unfold flushOutput
  by_cases hb : st.buffer = []
  · rw [if_pos hb]
  · rw [if_neg hb, if_neg (by simp)]

/-- One output-path step keeps the sent-plus-buffered chunk sequence a
sublist of everything enqueued so far. -/
theorem outStep_sent_buffer_sublist (st : OutState) (e : OutEv) :
    List.Sublist ((outStep st e).sent ++ (outStep st e).buffer)
      ((st.sent ++ st.buffer) ++ evChunks [e]) := by
  cases e with
  | data c =>
      show List.Sublist ((onData st c).sent ++ (onData st c).buffer)
        ((st.sent ++ st.buffer) ++ evChunks [OutEv.data c])
      have hch : evChunks [OutEv.data c] = [c] := by
        simp [evChunks, List.filterMap_cons]
      rw [hch]
      by_cases hover : OUTPUT_BUFFER_MAX < st.bufferSize + c.length
      · rw [onData_drop st c hover]
        exact (List.sublist_append_left st.sent st.buffer).append
          (List.Sublist.refl [c])
      · rw [onData_append st c (by omega)]
        rw [← List.append_assoc]
  | flushReady =>
      show List.Sublist
        ((flushOutput st true).sent ++ (flushOutput st true).buffer)
        ((st.sent ++ st.buffer) ++ evChunks [OutEv.flushReady])
      have hch : evChunks [OutEv.flushReady] = [] := by
        simp [evChunks, List.filterMap_cons]
      rw [hch, List.append_nil]
      by_cases hb : st.buffer = []
      · rw [flushOutput_nil st true hb]
      · rw [flushOutput_send st hb]
        rw [List.append_nil]
  | flushBlocked =>
      show List.Sublist
        ((flushOutput st false).sent ++ (flushOutput st false).buffer)
        ((st.sent ++ st.buffer) ++ evChunks [OutEv.flushBlocked])
      have hch : evChunks [OutEv.flushBlocked] = [] := by
        simp [evChunks, List.filterMap_cons]
      rw [hch, List.append_nil, flushOutput_blocked st]

theorem outFold_sent_buffer_sublist :
    ∀ (evs : List OutEv) (st : OutState),
      List.Sublist ((evs.foldl outStep st).sent ++
          (evs.foldl outStep st).buffer)
        ((st.sent ++ st.buffer) ++ evChunks evs) := by
  intro evs
  induction evs with
  | nil => intro st; simp [evChunks]
  | cons e rest ih =>
      intro st
      rw [List.foldl_cons]
      refine (ih (outStep st e)).trans ?_
      have hstep := outStep_sent_buffer_sublist st e
      have happ := hstep.append (List.Sublist.refl (evChunks rest))
      refine happ.trans ?_
      cases e with
      | data c =>
          have h1 : evChunks [OutEv.data c] = [c] := by
            simp [evChunks, List.filterMap_cons]
          have h2 : evChunks (OutEv.data c :: rest) = c :: evChunks rest := by
            simp [evChunks, List.filterMap_cons]
          rw [h1, h2, List.append_assoc, List.singleton_append]
      | flushReady =>
          have h1 : evChunks [OutEv.flushReady] = [] := by
            simp [evChunks, List.filterMap_cons]
          have h2 : evChunks (OutEv.flushReady :: rest) = evChunks rest := by
            simp [evChunks, List.filterMap_cons]
          rw [h1, h2, List.append_nil]
      | flushBlocked =>
          have h1 : evChunks [OutEv.flushBlocked] = [] := by
            simp [evChunks, List.filterMap_cons]
          have h2 : evChunks (OutEv.flushBlocked :: rest) = evChunks rest := by
            simp [evChunks, List.filterMap_cons]
          rw [h1, h2, List.append_nil]

theorem outStep_bound (st : OutState) (e : OutEv)
    (hbound : st.bufferSize ≤ OUTPUT_BUFFER_MAX)
    (hev : ∀ c, e = OutEv.data c → c.length ≤ OUTPUT_BUFFER_MAX) :
    (outStep st e).bufferSize ≤ OUTPUT_BUFFER_MAX := by
  cases e with
  | data c =>
      have hc := hev c rfl
      show (onData st c).bufferSize ≤ OUTPUT_BUFFER_MAX
      by_cases hover : OUTPUT_BUFFER_MAX < st.bufferSize + c.length
      · rw [onData_drop st c hover]
        exact hc
      · rw [onData_append st c (by omega)]
        show st.bufferSize + c.length ≤ OUTPUT_BUFFER_MAX
        omega
  | flushReady =>
      show (flushOutput st true).bufferSize ≤ OUTPUT_BUFFER_MAX
      by_cases hb : st.buffer = []
      · rw [flushOutput_nil st true hb]; exact hbound
      · rw [flushOutput_send st hb]; exact Nat.zero_le _
  | flushBlocked =>
      show (flushOutput st false).bufferSize ≤ OUTPUT_BUFFER_MAX
      rw [flushOutput_blocked st]
      exact hbound

theorem outFold_bound :
    ∀ (evs : List OutEv) (st : OutState),
      st.bufferSize ≤ OUTPUT_BUFFER_MAX →
      (∀ c ∈ evChunks evs, c.length ≤ OUTPUT_BUFFER_MAX) →
      (evs.foldl outStep st).bufferSize ≤ OUTPUT_BUFFER_MAX := by
  intro evs
  induction evs with
  | nil => intro st h _; simpa using h
  | cons e rest ih =>
      intro st h hall
      rw [List.foldl_cons]
      refine ih (outStep st e) ?_ ?_
      · refine outStep_bound st e h (fun c hc => ?_)
        refine hall c ?_
        rw [evChunks_cons, hc]
        exact List.mem_cons_self _ _
      · intro c hc
        refine hall c ?_
        rw [evChunks_cons]
        cases e with
        | data c2 => exact List.mem_cons_of_mem _ hc
        | flushReady => exact hc
        | flushBlocked => exact hc

/-- Counterexample to claim C8: a single PTY chunk of one byte more than
1 MiB makes the buffered byte count exceed 1 MiB — the drop empties the
buffer but the oversized chunk is appended whole, so the buffer is not
bounded by 1 MiB for every chunk sequence. -/
theorem outRun_single_oversized (c : Chunk)
    (h : OUTPUT_BUFFER_MAX < c.length) :
    OUTPUT_BUFFER_MAX < (outRun [OutEv.data c]).bufferSize := by
  unfold outRun
  rw [List.foldl_cons, List.foldl_nil]
  show OUTPUT_BUFFER_MAX <
    (onData { buffer := [], bufferSize := 0, sent := [] } c).bufferSize
  rw [onData_drop _ _ (by simpa using h)]
  exact h

theorem outputBuffer_exceeds_cap_counterexample :
    OUTPUT_BUFFER_MAX <
      (outRun [OutEv.data
        (List.replicate (OUTPUT_BUFFER_MAX + 1) 0)]).bufferSize :=
  outRun_single_oversized _
    (by simp only [List.length_replicate]; omega)

/-- Claim C8 as amended: provided every individual PTY chunk is at most
1 MiB, the per-connection output buffer never exceeds 1 MiB — whenever
enqueuing a chunk would push the buffered byte count above 1 MiB, all
currently buffered output is dropped before the new chunk is appended —
and unconditionally the byte stream the socket receives is a subsequence
of the PTY output. -/
theorem outputBuffer_bound_amended :
    ∀ evs : List OutEv,
      ((∀ c ∈ evChunks evs, c.length ≤ OUTPUT_BUFFER_MAX) →
        (outRun evs).bufferSize ≤ OUTPUT_BUFFER_MAX) ∧
      List.Sublist ((outRun evs).sent.flatten) ((evChunks evs).flatten) ∧
      (∀ (st : OutState) (c : Chunk),
        OUTPUT_BUFFER_MAX < st.bufferSize + c.length →
        onData st c =
          { buffer := [c], bufferSize := c.length, sent := st.sent }) ∧
      (∀ (st : OutState) (c : Chunk),
        st.bufferSize + c.length ≤ OUTPUT_BUFFER_MAX →
        onData st c =
          { buffer := st.buffer ++ [c],
            bufferSize := st.bufferSize + c.length, sent := st.sent }) := by
  intro evs
  refine ⟨?_, ?_, ?_, ?_⟩
  · intro hall
    exact outFold_bound evs _ (by simp) hall
  · have h1 := outFold_sent_buffer_sublist evs
      { buffer := [], bufferSize := 0, sent := [] }
    simp only [List.append_nil, List.nil_append] at h1
    have h2 : List.Sublist (outRun evs).sent
        ((outRun evs).sent ++ (outRun evs).buffer) :=
      List.sublist_append_left _ _
    exact sublist_flatten_of_sublist (h2.trans h1)
  · intro st c hover
    unfold onData
    rw [if_pos (by omega)]
    simp
  · intro st c hle
    unfold onData
    rw [if_neg (by omega)]

/-- Witness for the amended claim C8 on a small trace: two chunks under
the cap keep the buffer bounded, and after a flush the socket stream is a
subsequence of the PTY output. -/
theorem outputBuffer_bound_amended_witness :
    (outRun [OutEv.data [1, 2], OutEv.flushReady,
        OutEv.data [3]]).bufferSize ≤ OUTPUT_BUFFER_MAX ∧
    List.Sublist
      ((outRun [OutEv.data [1, 2], OutEv.flushReady,
          OutEv.data [3]]).sent.flatten)
      ((evChunks [OutEv.data [1, 2], OutEv.flushReady,
          OutEv.data [3]]).flatten) :=
  ⟨(outputBuffer_bound_amended
      [OutEv.data [1, 2], OutEv.flushReady, OutEv.data [3]]).1
      (by intro c hc; fin_cases hc <;> simp [OUTPUT_BUFFER_MAX]),
   (outputBuffer_bound_amended
      [OutEv.data [1, 2], OutEv.flushReady, OutEv.data [3]]).2.1⟩

/-
The promise-chaining SessionLock of src/unnamed/part_002 (lines 5-42),
for contrast with lock.ts: each acquire reads the current tail of the
chain (a resolved sentinel when absent), registers its fn to start after
that tail settles, and publishes as the new tail a promise that resolves
only when its own fn settles (wrapped in a catch so a rejection cannot
block the next waiter). The machine below embeds these steps for one
session id; the delete in the finally compares the map entry against
`next`, but the map stores the distinct `next.catch(...)` promise, so the
entry is never removed and the tail always names the latest call.
-/

/-- Status of one acquire call of the chaining lock. -/
inductive ChainStatus where
  | notStarted
  | running
  | settled
deriving DecidableEq

/-- State of the chaining-lock machine for one session id: the number of
acquire calls so far, for each call the tail it read at call time (none
is the resolved sentinel of an absent entry), the current tail, each
call's fn status, and each settled fn's outcome (true for fulfilled,
false for rejected). -/
structure ChainSt where
  called : Nat
  prevOf : List (Option Nat)
  tail : Option Nat
  status : List ChainStatus
  outcome : List (Option Bool)
deriving DecidableEq

/-- Events of the chaining machine: an acquire call arrives (reading and
replacing the tail synchronously), a call's fn starts (its predecessor's
promise has resolved), a call's fn settles with an outcome, or its
acquire's finally runs (whose delete-guard never fires, see above). -/
inductive ChainEv where
  | call
  | start (j : Nat)
  | settle (j : Nat) (ok : Bool)
  | cleanup (j : Nat)
deriving DecidableEq

/-- A call has started (its fn body is running or has settled). -/
def chainStarted (s : ChainSt) (j : Nat) : Prop :=
  s.status.get? j = some ChainStatus.running ∨
    s.status.get? j = some ChainStatus.settled

/-- The promise call j awaits has resolved: the sentinel, or the
predecessor whose finally resolves it has settled. Note the condition
never reads an outcome: a rejected predecessor resolves the chained
tail just the same (`next.catch(() => \x7b\x7d)`). -/
def chainPrevSettled (s : ChainSt) (j : Nat) : Bool :=
  match s.prevOf.get? j with
  | some Option.none => true
  | some (some k) => s.status.get? k == some ChainStatus.settled
  | Option.none => false

/-- The start of call j is enabled: its fn has not started and the
promise it awaits has resolved. Reads only statuses and the recorded
tails — never an outcome. -/
def chainStartReady (s : ChainSt) (j : Nat) : Bool :=
  (s.status.get? j == some ChainStatus.notStarted) && chainPrevSettled s j

/-- One step of the chaining machine; none when the event is not
enabled. -/
def chainStep (s : ChainSt) (e : ChainEv) : Option ChainSt :=
  match e with
  | ChainEv.call =>
      some { called := s.called + 1, prevOf := s.prevOf ++ [s.tail],
             tail := some s.called,
             status := s.status ++ [ChainStatus.notStarted],
             outcome := s.outcome ++ [Option.none] }
  | ChainEv.start j =>
      if chainStartReady s j then
        some { s with status := s.status.set j ChainStatus.running }
      else Option.none
  | ChainEv.settle j ok =>
      if s.status.get? j = some ChainStatus.running then
        some { s with status := s.status.set j ChainStatus.settled,
                      outcome := s.outcome.set j (some ok) }
      else Option.none
  | ChainEv.cleanup j =>
      if s.status.get? j = some ChainStatus.settled then some s
      else Option.none

/-- Initial state: no calls, empty map. -/
def chainInit : ChainSt :=
  { called := 0, prevOf := [], tail := Option.none, status := [],
    outcome := [] }

/-- Run the chaining machine; none when some event was not enabled. -/
def chainRun (evs : List ChainEv) : Option ChainSt :=
  evs.foldlM chainStep chainInit

/-- The inductive invariant of the chaining machine: bookkeeping lengths,
every read tail names the immediate predecessor (the sentinel only for
the first call), the stored tail names the latest call, and the safety
core: whenever a call has started, every earlier call has settled. -/
def ChainInv (s : ChainSt) : Prop :=
  s.prevOf.length = s.called ∧
  s.status.length = s.called ∧
  (∀ j k, s.prevOf.get? j = some (some k) → k + 1 = j) ∧
  (∀ j, s.prevOf.get? j = some Option.none → j = 0) ∧
  (∀ k, s.tail = some k → k + 1 = s.called) ∧
  (s.tail = Option.none → s.called = 0) ∧
  (∀ i j, i < j → chainStarted s j →
    s.status.get? i = some ChainStatus.settled)

theorem lt_length_of_get?_eq_some {α : Type} {l : List α} {n : Nat}
    {a : α} (h : l.get? n = some a) : n < l.length := by
  by_contra hn
  rw [List.get?_eq_none.mpr (by omega)] at h
  cases h

theorem chainInv_init : ChainInv chainInit := by
  refine ⟨rfl, rfl, ?_, ?_, ?_, fun _ => rfl, ?_⟩
  · intro j k h; simp [chainInit, List.get?] at h
  · intro j h; simp [chainInit, List.get?] at h
  · intro k h; simp [chainInit] at h
  · intro i j hij hst
    rcases hst with h | h <;> simp [chainInit, List.get?] at h

theorem chainStep_inv {s s2 : ChainSt} {e : ChainEv} (hinv : ChainInv s)
    (hstep : chainStep s e = some s2) : ChainInv s2 := by
  obtain ⟨h1, h2, h3, h4, h5, h6, h7⟩ := hinv
  cases e with
  | call =>
      simp only [chainStep, Option.some.injEq] at hstep
      subst hstep
      refine ⟨by simp [h1], by simp [h2], ?_, ?_, ?_, ?_, ?_⟩
      · intro j k hj
        by_cases hlt : j < s.prevOf.length
        · rw [List.get?_append hlt] at hj
          exact h3 j k hj
        · rw [List.get?_append_right (by omega)] at hj
          by_cases hz : j - s.prevOf.length = 0
          · rw [hz] at hj
            simp only [List.get?] at hj
            have htail : s.tail = some k := by injection hj
            have h5k := h5 k htail
            omega
          · have : ([s.tail].get? (j - s.prevOf.length)) = Option.none := by
              rw [List.get?_eq_none]
              simp
              omega
            rw [this] at hj
            cases hj
      · intro j hj
        by_cases hlt : j < s.prevOf.length
        · rw [List.get?_append hlt] at hj
          exact h4 j hj
        · rw [List.get?_append_right (by omega)] at hj
          by_cases hz : j - s.prevOf.length = 0
          · rw [hz] at hj
            simp only [List.get?] at hj
            have htail : s.tail = Option.none := by injection hj
            have := h6 htail
            omega
          · have : ([s.tail].get? (j - s.prevOf.length)) = Option.none := by
              rw [List.get?_eq_none]
              simp
              omega
            rw [this] at hj
            cases hj
      · intro k hk
        simp only [Option.some.injEq] at hk
        show k + 1 = s.called + 1
        omega
      · intro hk
        cases hk
      · intro i j hij hst
        have hjlt : j < s.status.length := by
          rcases hst with h | h <;>
            ( have hl2 := lt_length_of_get?_eq_some h
              simp only [List.length_append, List.length_singleton] at hl2
              by_contra hc
              have hge : s.status.length ≤ j := by omega
              by_cases hj : j = s.status.length
              · rw [List.get?_append_right (by omega), hj] at h
                simp only [Nat.sub_self, List.get?] at h
                cases h
              · rw [List.get?_append_right (by omega)] at h
                have hnone : ([ChainStatus.notStarted].get?
                    (j - s.status.length)) = Option.none := by
                  rw [List.get?_eq_none]
                  simp
                  omega
                rw [hnone] at h
                cases h )
        have hst2 : chainStarted s j := by
          rcases hst with h | h
          · exact Or.inl (by rw [← List.get?_append hjlt]; exact h)
          · exact Or.inr (by rw [← List.get?_append hjlt]; exact h)
        have := h7 i j hij hst2
        rw [List.get?_append (by
          have := lt_length_of_get?_eq_some this
          omega)]
        exact this
  | start j =>
      rw [chainStep] at hstep
      by_cases hcond : chainStartReady s j = true
      · rw [if_pos hcond] at hstep
        simp only [Option.some.injEq] at hstep
        subst hstep
        rw [chainStartReady, Bool.and_eq_true, beq_iff_eq] at hcond
        obtain ⟨hns, hprev⟩ := hcond
        have hjlt : j < s.status.length := lt_length_of_get?_eq_some hns
        refine ⟨h1, by simp [h2], h3, h4, h5, h6, ?_⟩
        intro i j2 hij hst
        by_cases hj2 : j2 = j
        · subst hj2
          have hineq : i ≠ j2 := by omega
          rw [List.get?_set_ne _ _ (fun he => hineq he.symm)]
          unfold chainPrevSettled at hprev
          cases hpj : s.prevOf.get? j2 with
          | none => rw [hpj] at hprev; cases hprev
          | some o =>
              cases o with
              | none =>
                  have := h4 j2 hpj
                  omega
              | some k =>
                  rw [hpj] at hprev
                  have hks : s.status.get? k = some ChainStatus.settled := by
                    simpa using hprev
                  have hkj : k + 1 = j2 := h3 j2 k hpj
                  by_cases hik : i = k
                  · rw [hik]; exact hks
                  · exact h7 i k (by omega) (Or.inr hks)
        · have hst2 : chainStarted s j2 := by
            rcases hst with h | h
            · rw [List.get?_set_ne _ _ (fun he => hj2 he.symm)] at h
              exact Or.inl h
            · rw [List.get?_set_ne _ _ (fun he => hj2 he.symm)] at h
              exact Or.inr h
          have hs := h7 i j2 hij hst2
          by_cases hij2 : i = j
          · rw [hij2] at hs
            rw [hns] at hs
            cases hs
          · rw [List.get?_set_ne _ _ (fun he => hij2 he.symm)]
            exact hs
      · rw [if_neg hcond] at hstep
        cases hstep
  | settle j ok =>
      rw [chainStep] at hstep
      by_cases hcond : s.status.get? j = some ChainStatus.running
      · rw [if_pos hcond] at hstep
        simp only [Option.some.injEq] at hstep
        subst hstep
        refine ⟨h1, by simp [h2], h3, h4, h5, h6, ?_⟩
        intro i j2 hij hst
        by_cases hj2 : j2 = j
        · subst hj2
          have hineq : i ≠ j2 := by omega
          rw [List.get?_set_ne _ _ (fun he => hineq he.symm)]
          exact h7 i j2 hij (Or.inl hcond)
        · have hst2 : chainStarted s j2 := by
            rcases hst with h | h
            · rw [List.get?_set_ne _ _ (fun he => hj2 he.symm)] at h
              exact Or.inl h
            · rw [List.get?_set_ne _ _ (fun he => hj2 he.symm)] at h
              exact Or.inr h
          have hs := h7 i j2 hij hst2
          by_cases hij2 : i = j
          · rw [hij2] at hs
            rw [hcond] at hs
            cases hs
          · rw [List.get?_set_ne _ _ (fun he => hij2 he.symm)]
            exact hs
      · rw [if_neg hcond] at hstep
        cases hstep
  | cleanup j =>
      rw [chainStep] at hstep
      by_cases hcond : s.status.get? j = some ChainStatus.settled
      · rw [if_pos hcond] at hstep
        simp only [Option.some.injEq] at hstep
        subst hstep
        exact ⟨h1, h2, h3, h4, h5, h6, h7⟩
      · rw [if_neg hcond] at hstep
        cases hstep

theorem chainFold_inv :
    ∀ (evs : List ChainEv) (s0 s : ChainSt), ChainInv s0 →
      evs.foldlM chainStep s0 = some s → ChainInv s := by
  intro evs
  induction evs with
  | nil =>
      intro s0 s h0 hrun
      simp only [List.foldlM_nil] at hrun
      cases hrun
      exact h0
  | cons e rest ih =>
      intro s0 s h0 hrun
      rw [List.foldlM_cons] at hrun
      cases hstep : chainStep s0 e with
      | none => rw [hstep] at hrun; cases hrun
      | some s1 =>
          rw [hstep] at hrun
          exact ih s1 s (chainStep_inv h0 hstep) hrun

/-- The promise-chaining SessionLock of part_002 serializes per id: in
every reachable state, a started call has every earlier call settled (so
fn bodies start in FIFO call order), and no two fn bodies are ever
running at once. Together with chainStart_ignores_outcome below, a
rejected fn cannot block its successor: the start condition never reads
an outcome. -/
theorem chainLock_serializes :
    ∀ (evs : List ChainEv) (s : ChainSt), chainRun evs = some s →
      (∀ i j, i < j → chainStarted s j →
        s.status.get? i = some ChainStatus.settled) ∧
      (∀ i j, i ≠ j →
        ¬(s.status.get? i = some ChainStatus.running ∧
          s.status.get? j = some ChainStatus.running)) := by
  intro evs s hrun
  have hinv := chainFold_inv evs chainInit s chainInv_init hrun
  obtain ⟨-, -, -, -, -, -, h7⟩ := hinv
  refine ⟨h7, ?_⟩
  intro i j hij ⟨hi, hj⟩
  rcases Nat.lt_or_ge i j with h | h
  · have := h7 i j h (Or.inl hj)
    rw [hi] at this
    cases this
  · have hji : j < i := by omega
    have := h7 j i hji (Or.inl hi)
    rw [hj] at this
    cases this

/-- The start condition of the chaining machine never reads a settled
outcome: replacing the recorded outcomes wholesale leaves the enabledness
of every start unchanged, so a rejected fn does not prevent its successor
from starting. -/
theorem chainStart_ignores_outcome (s : ChainSt) (oc : List (Option Bool))
    (j : Nat) :
    chainStartReady { s with outcome := oc } j = chainStartReady s j :=
  rfl

/-- A five-event sanity run of the chaining machine: two calls, the first
fn starts, rejects, and only then can the second start — reaching it with
both settled and the machine having enforced FIFO throughout. -/
theorem chainRun_two_calls :
    chainRun [ChainEv.call, ChainEv.call, ChainEv.start 0,
        ChainEv.settle 0 false, ChainEv.start 1] =
      some { called := 2, prevOf := [Option.none, some 0],
             tail := some 1,
             status := [ChainStatus.settled, ChainStatus.running],
             outcome := [some false, Option.none] } := by
  decide

end Conduit
